import Mathlib

/-!
Verification of the authentication/authorization and validation subsystem of the
ratings service.  The definitions below are shallow embeddings of the Go source:

* `ModelError`, `VError` embed the error taxonomy of `internal/models` (errors.go):
  `ModelError` values are the exported `Err*` constants (all of which implement
  `PublicError`); `VError.validation` is a `ValidationError` field map;
  `VError.priv` stands for any other error (a `privateError` or a wrapped error),
  which the engine's type switch treats as opaque.
* `runValidationFunctionsAux` / `runValidationFunctions` embed
  `runValidationFunctions` of `internal/models/helpers.go`, instrumented with a
  trace of the indices of the validator steps whose function was actually invoked.
* The permission bitmask, the `Can` middleware gate, the credential/token service
  and the User/Role/Rating validators follow, each translated from its Go source.
-/

namespace RatingsApp

/-- The exported error constants of the models package (errors.go).  Every one of
these implements `PublicError` in Go. -/
inductive ModelError where
  | notFound
  | readOnly
  | fieldReadOnly
  | inUse
  | unauthorised
  | idTaken
  | tooShort
  | tooLong
  | required
  | invalid
  | duplicate
  | refNotFound
  | noCredentials
  | refreshInvalid
  | refreshExpired
  | passwordIncorrect
  | typeIncompatible
  deriving DecidableEq, Repr

/-- The public code of each model error: the string between `models: ` and the
first comma of the Go constant, as extracted by `ModelError.Public()`. -/
def ModelError.publicCode : ModelError → String
  | .notFound => "not_found"
  | .readOnly => "read_only"
  | .fieldReadOnly => "field_read_only"
  | .inUse => "in_use"
  | .unauthorised => "unauthorised"
  | .idTaken => "id_taken"
  | .tooShort => "too_short"
  | .tooLong => "too_long"
  | .required => "required"
  | .invalid => "invalid"
  | .duplicate => "is_duplicate"
  | .refNotFound => "reference_not_found"
  | .noCredentials => "credentials_not_provided"
  | .refreshInvalid => "invalid_refresh_token"
  | .refreshExpired => "expired_refresh_token"
  | .passwordIncorrect => "incorrect_password"
  | .typeIncompatible => "sensor_type_incompatible"

/-- A Go `error` value as discriminated by the type switch inside
`runValidationFunctions`: a `ValidationError` map (field name to public error),
a `PublicError` (in this code base always a `ModelError` value), or any other
error, which is private to the caller. -/
inductive VError (E : Type) where
  | validation (m : List (String × E))
  | pub (e : E)
  | priv (msg : String)
  deriving DecidableEq, Repr

/-- One validator step wrapper: the field tag returned by the wrapper (empty for
a whole-record validator) together with the validation function, which receives
the record and returns the (possibly mutated) record and an optional error. -/
structure ValStep (σ E : Type) where
  field : String
  run : σ → σ × Option (VError E)

/-- Go map lookup `ve[field]` over the association-list model of a
`ValidationError`. -/
def mapGet {E : Type} (ve : List (String × E)) (k : String) : Option E :=
  match ve with
  | [] => none
  | (k', e) :: rest => if k' = k then some e else mapGet rest k

/-- Go map assignment `ve[k] = e` over the association-list model: replace the
binding of `k` when present, append it otherwise. -/
def mapSet {E : Type} (ve : List (String × E)) (k : String) (e : E) : List (String × E) :=
  match ve with
  | [] => [(k, e)]
  | (k', e') :: rest => if k' = k then (k, e) :: rest else (k', e') :: mapSet rest k e

/-- The merge loop of `runValidationFunctions`: when a field validator returns a
nested `ValidationError` map `m`, each of its entries is stored under the key
`<field>.<nestedField>`. -/
def mergeNested {E : Type} (ve : List (String × E)) (f : String) (m : List (String × E)) :
    List (String × E) :=
  m.foldl (fun acc kv => mapSet acc (f ++ "." ++ kv.1) kv.2) ve

/-- The full state produced by a run of the validation engine: the final record,
the accumulated field-error map, the indices of the steps whose validation
function was invoked, and the abort error if the loop returned early. -/
structure RunResult (σ E : Type) where
  val : σ
  ve : List (String × E)
  trace : List Nat
  abort : Option (VError E)

/-- The loop of `runValidationFunctions` (helpers.go lines 50-90), instrumented
with the invocation trace.  An untagged step runs only when no field errors have
been recorded and returns its error straight away; a field-tagged step runs only
when its field has no recorded error, merging nested maps, storing public errors
and aborting on any other error. -/
def runValidationFunctionsAux {σ E : Type} (fns : List (ValStep σ E)) (v : σ)
    (ve : List (String × E)) (idx : Nat) : RunResult σ E :=
  match fns with
  | [] => ⟨v, ve, [], none⟩
  | s :: rest =>
    if s.field = "" then
      if ve.isEmpty then
        match s.run v with
        | (v', none) =>
          let r := runValidationFunctionsAux rest v' ve (idx + 1)
          ⟨r.val, r.ve, idx :: r.trace, r.abort⟩
        | (v', some e) => ⟨v', ve, [idx], some e⟩
      else
        runValidationFunctionsAux rest v ve (idx + 1)
    else
      if (mapGet ve s.field).isNone then
        match s.run v with
        | (v', none) =>
          let r := runValidationFunctionsAux rest v' ve (idx + 1)
          ⟨r.val, r.ve, idx :: r.trace, r.abort⟩
        | (v', some (.validation m)) =>
          let r := runValidationFunctionsAux rest v' (mergeNested ve s.field m) (idx + 1)
          ⟨r.val, r.ve, idx :: r.trace, r.abort⟩
        | (v', some (.pub e)) =>
          let r := runValidationFunctionsAux rest v' (mapSet ve s.field e) (idx + 1)
          ⟨r.val, r.ve, idx :: r.trace, r.abort⟩
        | (v', some (.priv p)) => ⟨v', ve, [idx], some (.priv p)⟩
      else
        runValidationFunctionsAux rest v ve (idx + 1)

/-- `runValidationFunctions` of helpers.go: run the steps from an empty error
map; return the abort error if the loop returned early, the accumulated
`ValidationError` if it is non-empty, and no error otherwise.  The first
component is the record as mutated through the pointer. -/
def runValidationFunctions {σ E : Type} (fns : List (ValStep σ E)) (v : σ) :
    σ × Option (VError E) :=
  match runValidationFunctionsAux fns v [] 0 with
  | ⟨v', _, _, some e⟩ => (v', some e)
  | ⟨v', ve, _, none⟩ => (v', if ve.isEmpty then none else some (.validation ve))

/-! ### Engine lemmas -/

theorem mapGet_mapSet_self {E : Type} (ve : List (String × E)) (k : String) (e : E) :
    mapGet (mapSet ve k e) k = some e := by
  induction ve with
  | nil => simp [mapSet, mapGet]
  | cons p rest ih =>
    obtain ⟨k', e'⟩ := p
    by_cases h : k' = k
    · simp [mapSet, mapGet, h]
    · simp [mapSet, mapGet, h, ih]

theorem mapGet_mapSet_ne {E : Type} (ve : List (String × E)) {k g : String} (e : E)
    (h : k ≠ g) : mapGet (mapSet ve k e) g = mapGet ve g := by
  induction ve with
  | nil => simp [mapSet, mapGet, h]
  | cons p rest ih =>
    obtain ⟨k', e'⟩ := p
    by_cases hk : k' = k
    · subst hk
      simp [mapSet, mapGet, h, ih]
    · simp only [mapSet, hk, if_false]
      by_cases hg : k' = g <;> simp [mapGet, hg, ih]

theorem mapGet_mapSet_isSome {E : Type} (ve : List (String × E)) (k g : String) (e : E)
    (h : (mapGet ve g).isSome) : (mapGet (mapSet ve k e) g).isSome := by
  by_cases hk : k = g
  · subst hk; simp [mapGet_mapSet_self]
  · rwa [mapGet_mapSet_ne ve e hk]

theorem mapGet_mergeNested_isSome {E : Type} (m : List (String × E))
    (ve : List (String × E)) (f g : String) (h : (mapGet ve g).isSome) :
    (mapGet (mergeNested ve f m) g).isSome := by
  induction m generalizing ve with
  | nil => simpa [mergeNested]
  | cons kv rest ih =>
    simp only [mergeNested, List.foldl_cons] at *
    exact ih (mapSet ve (f ++ "." ++ kv.1) kv.2) (mapGet_mapSet_isSome _ _ _ _ h)

theorem mapSet_ne_nil {E : Type} (ve : List (String × E)) (k : String) (e : E) :
    mapSet ve k e ≠ [] := by
  cases ve with
  | nil => simp [mapSet]
  | cons p rest =>
    obtain ⟨k', e'⟩ := p
    by_cases h : k' = k <;> simp [mapSet, h]

theorem mergeNested_ne_nil {E : Type} (m : List (String × E)) (ve : List (String × E))
    (f : String) (h : ve ≠ []) : mergeNested ve f m ≠ [] := by
  induction m generalizing ve with
  | nil => simpa [mergeNested]
  | cons kv rest ih =>
    simp only [mergeNested, List.foldl_cons] at *
    exact ih (mapSet ve (f ++ "." ++ kv.1) kv.2) (mapSet_ne_nil _ _ _)

theorem mapGet_isSome_ne_nil {E : Type} (ve : List (String × E)) (f : String)
    (h : (mapGet ve f).isSome) : ve ≠ [] := by
  cases ve with
  | nil => simp [mapGet] at h
  | cons p rest => simp

/-- Every index in the invocation trace of a run starting at index `idx` over
`fns` lies in the half-open range from `idx` to `idx + fns.length`. -/
theorem aux_trace_bound {σ E : Type} (fns : List (ValStep σ E)) :
    ∀ (v : σ) (ve : List (String × E)) (idx j : Nat),
      j ∈ (runValidationFunctionsAux fns v ve idx).trace →
      idx ≤ j ∧ j < idx + fns.length := by
  induction fns with
  | nil =>
    intro v ve idx j h
    simp [runValidationFunctionsAux] at h
  | cons s rest ih =>
    intro v ve idx j h
    simp only [runValidationFunctionsAux] at h
    split at h
    · split at h
      · split at h
        · simp only [List.mem_cons] at h
          rcases h with h | h
          · subst h; simp
          · have := ih _ _ _ _ h
            constructor <;> [omega; (simp only [List.length_cons]; omega)]
        · simp only [List.mem_singleton] at h
          subst h; simp
      · have := ih _ _ _ _ h
        constructor <;> [omega; (simp only [List.length_cons]; omega)]
    · split at h
      · split at h
        · simp only [List.mem_cons] at h
          rcases h with h | h
          · subst h; simp
          · have := ih _ _ _ _ h
            constructor <;> [omega; (simp only [List.length_cons]; omega)]
        · simp only [List.mem_cons] at h
          rcases h with h | h
          · subst h; simp
          · have := ih _ _ _ _ h
            constructor <;> [omega; (simp only [List.length_cons]; omega)]
        · simp only [List.mem_cons] at h
          rcases h with h | h
          · subst h; simp
          · have := ih _ _ _ _ h
            constructor <;> [omega; (simp only [List.length_cons]; omega)]
        · simp only [List.mem_singleton] at h
          subst h; simp
      · have := ih _ _ _ _ h
        constructor <;> [omega; (simp only [List.length_cons]; omega)]

/-- Splitting a run over a concatenation of step lists: the run over `l1 ++ l2`
is the run over `l1`, and when that does not abort, the run over `l2` continued
from its final state, with the traces concatenated. -/
theorem aux_append {σ E : Type} (l1 l2 : List (ValStep σ E)) :
    ∀ (v : σ) (ve : List (String × E)) (idx : Nat),
      runValidationFunctionsAux (l1 ++ l2) v ve idx =
        match runValidationFunctionsAux l1 v ve idx with
        | ⟨v1, ve1, tr1, some e⟩ => ⟨v1, ve1, tr1, some e⟩
        | ⟨v1, ve1, tr1, none⟩ =>
          let r2 := runValidationFunctionsAux l2 v1 ve1 (idx + l1.length)
          ⟨r2.val, r2.ve, tr1 ++ r2.trace, r2.abort⟩ := by
  induction l1 with
  | nil =>
    intro v ve idx
    simp [runValidationFunctionsAux]
  | cons s rest ih =>
    intro v ve idx
    have harith : idx + 1 + rest.length = idx + (rest.length + 1) := by omega
    simp only [List.cons_append, runValidationFunctionsAux, List.append_eq]
    by_cases hf : s.field = ""
    · by_cases he : ve.isEmpty
      · rcases hr : s.run v with ⟨v', eo⟩
        cases eo with
        | none =>
          simp only [hf, if_true, he, hr, List.length_cons]
          rw [ih v' ve (idx + 1)]
          rcases h1 : runValidationFunctionsAux rest v' ve (idx + 1) with ⟨v1, ve1, tr1, ab1⟩
          cases ab1 <;> simp [h1, harith]
        | some e => simp [hf, he, hr]
      · simp only [hf, if_true, he, if_false, List.length_cons]
        rw [ih v ve (idx + 1)]
        rcases h1 : runValidationFunctionsAux rest v ve (idx + 1) with ⟨v1, ve1, tr1, ab1⟩
        cases ab1 <;> simp [h1, harith]
    · by_cases hn : (mapGet ve s.field).isNone
      · rcases hr : s.run v with ⟨v', eo⟩
        rcases eo with _ | e
        · simp only [hf, if_false, hn, if_true, hr, List.length_cons]
          rw [ih v' ve (idx + 1)]
          rcases h1 : runValidationFunctionsAux rest v' ve (idx + 1) with ⟨v1, ve1, tr1, ab1⟩
          cases ab1 <;> simp [h1, harith]
        · rcases e with m | e | p
          · simp only [hf, if_false, hn, if_true, hr, List.length_cons]
            rw [ih v' (mergeNested ve s.field m) (idx + 1)]
            rcases h1 : runValidationFunctionsAux rest v' (mergeNested ve s.field m) (idx + 1)
              with ⟨v1, ve1, tr1, ab1⟩
            cases ab1 <;> simp [h1, harith]
          · simp only [hf, if_false, hn, if_true, hr, List.length_cons]
            rw [ih v' (mapSet ve s.field e) (idx + 1)]
            rcases h1 : runValidationFunctionsAux rest v' (mapSet ve s.field e) (idx + 1)
              with ⟨v1, ve1, tr1, ab1⟩
            cases ab1 <;> simp [h1, harith]
          · simp [hf, hn, hr]
      · simp only [hf, if_false, hn, if_false, List.length_cons]
        rw [ih v ve (idx + 1)]
        rcases h1 : runValidationFunctionsAux rest v ve (idx + 1) with ⟨v1, ve1, tr1, ab1⟩
        cases ab1 <;> simp [h1, harith]

/-- Once some error is recorded for field `f`, an error stays recorded for `f`
for the rest of the run and no step tagged with `f` is ever invoked again. -/
theorem aux_skip {σ E : Type} (fns : List (ValStep σ E)) (f : String) :
    ∀ (v : σ) (ve : List (String × E)) (idx : Nat), (mapGet ve f).isSome →
      (mapGet (runValidationFunctionsAux fns v ve idx).ve f).isSome ∧
      ∀ j, (hj : j < fns.length) → (fns.get ⟨j, hj⟩).field = f →
        (idx + j) ∉ (runValidationFunctionsAux fns v ve idx).trace := by
  induction fns with
  | nil =>
    intro v ve idx h
    refine ⟨by simpa [runValidationFunctionsAux], ?_⟩
    intro j hj
    simp at hj
  | cons s rest ih =>
    intro v ve idx h
    have hne : ve ≠ [] := mapGet_isSome_ne_nil ve f h
    have hemp : ve.isEmpty = false := by simpa [List.isEmpty_iff] using hne
    simp only [runValidationFunctionsAux]
    by_cases hf : s.field = ""
    · simp only [hf, if_true, hemp, Bool.false_eq_true, if_false]
      obtain ⟨ih1, ih2⟩ := ih v ve (idx + 1) h
      refine ⟨ih1, ?_⟩
      intro j hj hjf hmem
      cases j with
      | zero =>
        have := (aux_trace_bound rest v ve (idx + 1) (idx + 0) hmem).1
        omega
      | succ j' =>
        have hj' : j' < rest.length := by simpa [List.length_cons] using hj
        have heq : idx + (j' + 1) = (idx + 1) + j' := by omega
        rw [heq] at hmem
        exact ih2 j' hj' (by simpa using hjf) hmem
    · by_cases hn : (mapGet ve s.field).isNone
      · have hsf : s.field ≠ f := by
          intro hcontra
          rw [hcontra] at hn
          simp [Option.isNone_iff_eq_none] at hn
          simp [hn] at h
        rcases hr : s.run v with ⟨v', eo⟩
        rcases eo with _ | (m | e | p)
        · simp only [hf, if_false, hn, if_true, hr]
          obtain ⟨ih1, ih2⟩ := ih v' ve (idx + 1) h
          refine ⟨ih1, ?_⟩
          intro j hj hjf hmem
          cases j with
          | zero => exact hsf (by simpa using hjf)
          | succ j' =>
            have hj' : j' < rest.length := by simpa [List.length_cons] using hj
            simp only [List.mem_cons] at hmem
            rcases hmem with hmem | hmem
            · omega
            · have heq : idx + (j' + 1) = (idx + 1) + j' := by omega
              rw [heq] at hmem
              exact ih2 j' hj' (by simpa using hjf) hmem
        · simp only [hf, if_false, hn, if_true, hr]
          obtain ⟨ih1, ih2⟩ :=
            ih v' (mergeNested ve s.field m) (idx + 1) (mapGet_mergeNested_isSome m ve s.field f h)
          refine ⟨ih1, ?_⟩
          intro j hj hjf hmem
          cases j with
          | zero => exact hsf (by simpa using hjf)
          | succ j' =>
            have hj' : j' < rest.length := by simpa [List.length_cons] using hj
            simp only [List.mem_cons] at hmem
            rcases hmem with hmem | hmem
            · omega
            · have heq : idx + (j' + 1) = (idx + 1) + j' := by omega
              rw [heq] at hmem
              exact ih2 j' hj' (by simpa using hjf) hmem
        · simp only [hf, if_false, hn, if_true, hr]
          obtain ⟨ih1, ih2⟩ :=
            ih v' (mapSet ve s.field e) (idx + 1) (mapGet_mapSet_isSome ve s.field f e h)
          refine ⟨ih1, ?_⟩
          intro j hj hjf hmem
          cases j with
          | zero => exact hsf (by simpa using hjf)
          | succ j' =>
            have hj' : j' < rest.length := by simpa [List.length_cons] using hj
            simp only [List.mem_cons] at hmem
            rcases hmem with hmem | hmem
            · omega
            · have heq : idx + (j' + 1) = (idx + 1) + j' := by omega
              rw [heq] at hmem
              exact ih2 j' hj' (by simpa using hjf) hmem
        · simp only [hf, if_false, hn, if_true, hr]
          refine ⟨h, ?_⟩
          intro j hj hjf hmem
          cases j with
          | zero => exact hsf (by simpa using hjf)
          | succ j' =>
            simp only [List.mem_singleton] at hmem
            omega
      · simp only [hf, if_false, hn, if_false]
        obtain ⟨ih1, ih2⟩ := ih v ve (idx + 1) h
        refine ⟨ih1, ?_⟩
        intro j hj hjf hmem
        cases j with
        | zero =>
          have := (aux_trace_bound rest v ve (idx + 1) (idx + 0) hmem).1
          omega
        | succ j' =>
          have hj' : j' < rest.length := by simpa [List.length_cons] using hj
          have heq : idx + (j' + 1) = (idx + 1) + j' := by omega
          rw [heq] at hmem
          exact ih2 j' hj' (by simpa using hjf) hmem

/-- When no step of the pipeline ever returns a nested `ValidationError` map,
an error recorded for field `f` is never overwritten. -/
theorem aux_keep {σ E : Type} (fns : List (ValStep σ E)) (f : String) (e : E)
    (hNoVE : ∀ s ∈ fns, ∀ (u : σ) (m : List (String × E)), (s.run u).2 ≠ some (.validation m)) :
    ∀ (v : σ) (ve : List (String × E)) (idx : Nat), mapGet ve f = some e →
      mapGet (runValidationFunctionsAux fns v ve idx).ve f = some e := by
  induction fns with
  | nil =>
    intro v ve idx h
    simpa [runValidationFunctionsAux]
  | cons s rest ih =>
    intro v ve idx h
    have hrest : ∀ s' ∈ rest, ∀ (u : σ) (m : List (String × E)),
        (s'.run u).2 ≠ some (.validation m) :=
      fun s' hs' => hNoVE s' (List.mem_cons_of_mem s hs')
    have hne : ve ≠ [] := mapGet_isSome_ne_nil ve f (by simp [h])
    have hemp : ve.isEmpty = false := by simpa [List.isEmpty_iff] using hne
    simp only [runValidationFunctionsAux]
    by_cases hf : s.field = ""
    · simp only [hf, if_true, hemp, Bool.false_eq_true, if_false]
      exact ih hrest v ve (idx + 1) h
    · by_cases hn : (mapGet ve s.field).isNone
      · have hsf : s.field ≠ f := by
          intro hcontra
          rw [hcontra, h] at hn
          simp at hn
        rcases hr : s.run v with ⟨v', eo⟩
        rcases eo with _ | (m | e' | p)
        · simp only [hf, if_false, hn, if_true, hr]
          exact ih hrest v' ve (idx + 1) h
        · exact absurd (by simp [hr]) (hNoVE s (List.mem_cons_self s rest) v m)
        · simp only [hf, if_false, hn, if_true, hr]
          exact ih hrest v' (mapSet ve s.field e') (idx + 1)
            (by rw [mapGet_mapSet_ne ve e' hsf]; exact h)
        · simp only [hf, if_false, hn, if_true, hr]
          exact h
      · simp only [hf, if_false, hn, if_false]
        exact ih hrest v ve (idx + 1) h

/-- C2 (amended): in any run of the validation engine, once an error has been
recorded for field `f` (after the first `n` steps), no later step tagged with
`f` is ever invoked; and provided no step returns a nested field-error map — as
is the case for every pipeline assembled in this repository — the recorded error
for `f` is never overwritten and the engine's result maps `f` to that first
error. -/
theorem runValidationFunctions_first_error_wins {σ E : Type}
    (fns : List (ValStep σ E)) (v : σ) (n : Nat) (f : String) (e : E)
    (hNoVE : ∀ s ∈ fns, ∀ (u : σ) (m : List (String × E)), (s.run u).2 ≠ some (.validation m))
    (hrec : mapGet (runValidationFunctionsAux (fns.take n) v [] 0).ve f = some e) :
    mapGet (runValidationFunctionsAux fns v [] 0).ve f = some e ∧
    (∀ j, (hj : j < fns.length) → n ≤ j → (fns.get ⟨j, hj⟩).field = f →
      j ∉ (runValidationFunctionsAux fns v [] 0).trace) ∧
    ((runValidationFunctionsAux fns v [] 0).abort = none →
      ∃ m, (runValidationFunctions fns v).2 = some (.validation m) ∧ mapGet m f = some e) := by
  have hsplit := aux_append (fns.take n) (fns.drop n) v [] 0
  rw [List.take_append_drop] at hsplit
  rcases h1 : runValidationFunctionsAux (fns.take n) v [] 0 with ⟨v1, ve1, tr1, ab1⟩
  rw [h1] at hsplit hrec
  simp only at hrec
  have htr1 : ∀ j ∈ tr1, j < (fns.take n).length := by
    intro j hj
    have := aux_trace_bound (fns.take n) v [] 0 j (by rw [h1]; exact hj)
    omega
  have hLn : (fns.take n).length ≤ n := by
    rw [List.length_take]; omega
  cases ab1 with
  | some e0 =>
    simp only at hsplit
    rw [hsplit]
    refine ⟨hrec, ?_, ?_⟩
    · intro j hj hnj hjf hmem
      have := htr1 j hmem
      omega
    · intro habs
      simp at habs
  | none =>
    simp only at hsplit
    rw [hsplit]
    have hNoVE2 : ∀ s ∈ fns.drop n, ∀ (u : σ) (m : List (String × E)),
        (s.run u).2 ≠ some (.validation m) :=
      fun s hs => hNoVE s (List.mem_of_mem_drop hs)
    have hkeep := aux_keep (fns.drop n) f e hNoVE2 v1 ve1 (0 + (fns.take n).length) hrec
    refine ⟨hkeep, ?_, ?_⟩
    · intro j hj hnj hjf hmem
      simp only [List.mem_append] at hmem
      rcases hmem with hmem | hmem
      · have := htr1 j hmem
        omega
      · have hLeq : (fns.take n).length = n := by
          rw [List.length_take]; omega
        rw [hLeq] at hmem
        have hskip := (aux_skip (fns.drop n) f v1 ve1 (0 + n) (by simp [hrec])).2
        have hj2 : j - n < (fns.drop n).length := by
          rw [List.length_drop]; omega
        have h' : n + (j - n) < fns.length := by omega
        have hgd := List.get_drop fns h'
        have hfin : fns.get ⟨n + (j - n), h'⟩ = fns.get ⟨j, hj⟩ := by
          congr 1
          rw [Fin.mk.injEq]
          omega
        have hget : ((fns.drop n).get ⟨j - n, hj2⟩).field = f := by
          rw [← hgd, hfin]
          exact hjf
        have hs := hskip (j - n) hj2 hget
        have hjeq2 : 0 + n + (j - n) = j := by omega
        rw [hjeq2] at hs
        exact hs hmem
    · intro hab
      simp only at hab
      refine ⟨(runValidationFunctionsAux (fns.drop n) v1 ve1 (0 + (fns.take n).length)).ve,
        ?_, hkeep⟩
      have hne : (runValidationFunctionsAux (fns.drop n) v1 ve1
          (0 + (fns.take n).length)).ve ≠ [] :=
        mapGet_isSome_ne_nil _ f (by rw [hkeep]; rfl)
      unfold runValidationFunctions
      rw [hsplit]
      rcases h2 : runValidationFunctionsAux (fns.drop n) v1 ve1 (0 + (fns.take n).length)
        with ⟨v2, ve2, tr2, ab2⟩
      rw [h2] at hab hne
      simp only at hab hne ⊢
      subst hab
      simp [List.isEmpty_iff, hne]

/-- Steps exhibiting the overwrite that nested-map merging permits: a step
tagged `a.b` records an error for field `a.b`, then a step tagged `a` returns a
nested field-error map whose merge stores a second error under the same key. -/
def overwriteStep1 : ValStep Unit ModelError :=
  ⟨"a.b", fun v => (v, some (.pub .required))⟩

/-- Second step of the overwrite example. -/
def overwriteStep2 : ValStep Unit ModelError :=
  ⟨"a", fun v => (v, some (.validation [("b", .invalid)]))⟩

/-- C2 counterexample: the claim "the recorded error for `f` is never
overwritten and the result maps each failing field to the first error produced
for it" fails on the engine as implemented: after `overwriteStep1` the error
recorded for field `a.b` is `required` (the first error produced for it), yet
the final result maps `a.b` to `invalid`, the error merged later from the step
tagged `a`. -/
theorem runValidationFunctions_overwrite_counterexample :
    mapGet (runValidationFunctionsAux [overwriteStep1] () [] 0).ve "a.b"
      = some .required ∧
    (runValidationFunctions [overwriteStep1, overwriteStep2] ()).2
      = some (.validation [("a.b", .invalid)]) := by
  constructor <;> rfl

/-- First step of the first-error-wins witness pipeline. -/
def firstWinsStepA : ValStep Unit ModelError :=
  ⟨"x", fun v => (v, some (.pub .required))⟩

/-- Second step of the first-error-wins witness pipeline. -/
def firstWinsStepB : ValStep Unit ModelError :=
  ⟨"x", fun v => (v, some (.pub .invalid))⟩

/-- Witness for the amended C2 theorem on a concrete two-step pipeline in which
both steps are tagged `x`: the error of the first step wins. -/
theorem runValidationFunctions_first_error_wins_witness :
    mapGet (runValidationFunctionsAux [firstWinsStepA, firstWinsStepB] () [] 0).ve "x"
      = some .required :=
  (runValidationFunctions_first_error_wins [firstWinsStepA, firstWinsStepB]
    () 1 "x" .required
    (by
      intro s hs u m
      simp only [List.mem_cons, List.not_mem_nil, or_false] at hs
      rcases hs with rfl | rfl <;> simp [firstWinsStepA, firstWinsStepB])
    (by rfl)).1

/-- C3: an untagged ("session") validator step is invoked only when the
field-error map is still empty, and when an untagged step returns an error the
engine returns exactly that error, with the (empty) accumulated field-error map
discarded — so no field error ever reaches the caller in that case. -/
theorem runValidationFunctions_untagged_abort {σ E : Type}
    (fns : List (ValStep σ E)) (v : σ) (n : Nat) (hn : n < fns.length)
    (hfield : (fns.get ⟨n, hn⟩).field = "") :
    (n ∈ (runValidationFunctionsAux fns v [] 0).trace →
      (runValidationFunctionsAux (fns.take n) v [] 0).ve = []) ∧
    (∀ (v' : σ) (e : VError E),
      (runValidationFunctionsAux (fns.take n) v [] 0).abort = none →
      (runValidationFunctionsAux (fns.take n) v [] 0).ve = [] →
      (fns.get ⟨n, hn⟩).run (runValidationFunctionsAux (fns.take n) v [] 0).val = (v', some e) →
      runValidationFunctions fns v = (v', some e)) := by
  have hsplit := aux_append (fns.take n) (fns.drop n) v [] 0
  rw [List.take_append_drop] at hsplit
  have hLeq : (fns.take n).length = n := by
    rw [List.length_take]; omega
  have hdrop : fns.drop n = fns.get ⟨n, hn⟩ :: fns.drop (n + 1) := by
    rw [List.get_cons_drop]
  rcases h1 : runValidationFunctionsAux (fns.take n) v [] 0 with ⟨v1, ve1, tr1, ab1⟩
  rw [h1] at hsplit
  simp only at hsplit ⊢
  have htr1 : ∀ j ∈ tr1, j < n := by
    intro j hj
    have := aux_trace_bound (fns.take n) v [] 0 j (by rw [h1]; exact hj)
    omega
  constructor
  · intro hmem
    cases ab1 with
    | some e0 =>
      rw [hsplit] at hmem
      simp only at hmem
      have := htr1 n hmem
      omega
    | none =>
      rw [hsplit] at hmem
      simp only [List.mem_append] at hmem
      rcases hmem with hmem | hmem
      · have := htr1 n hmem
        omega
      · by_contra hne
        have hemp : ve1.isEmpty = false := by
          rcases ve1 with _ | ⟨p, rest⟩
          · simp at hne
          · simp
        rw [hdrop] at hmem
        simp only [runValidationFunctionsAux, hfield, if_true, hemp, Bool.false_eq_true,
          if_false, hLeq] at hmem
        have := aux_trace_bound (fns.drop (n + 1)) v1 ve1 (0 + n + 1) n hmem
        omega
  · intro v' e hab hve hrun
    cases ab1 with
    | some e0 => simp at hab
    | none =>
      subst hve
      unfold runValidationFunctions
      rw [hsplit, hdrop]
      simp only [runValidationFunctionsAux, hfield, if_true, List.isEmpty_nil]
      rw [hrun]

/-- The untagged failing step of the C3 witness pipeline. -/
def untaggedFailStep : ValStep Unit ModelError :=
  ⟨"", fun v => (v, some (.pub .readOnly))⟩

/-- Witness for C3 on a one-step pipeline whose untagged validator fails: the
engine returns exactly that error. -/
theorem runValidationFunctions_untagged_abort_witness :
    runValidationFunctions [untaggedFailStep] () = ((), some (.pub .readOnly)) :=
  (runValidationFunctions_untagged_abort [untaggedFailStep] () 0 (by simp) (by rfl)).2
    () (.pub .readOnly) (by rfl) (by rfl) (by rfl)

/-! ## Permission model (roles.go) -/

/-- The four permission flags, as bit patterns of the Go `Permissions` int64. -/
def PermissionReadUsers : Nat := 1

/-- `PermissionWriteUsers` flag. -/
def PermissionWriteUsers : Nat := 2

/-- `PermissionReadRatings` flag. -/
def PermissionReadRatings : Nat := 4

/-- `PermissionWriteRatings` flag. -/
def PermissionWriteRatings : Nat := 8

/-- The `permissionsFromString` table. -/
def permissionsFromString : String → Option Nat
  | "readUsers" => some PermissionReadUsers
  | "writeUsers" => some PermissionWriteUsers
  | "readRatings" => some PermissionReadRatings
  | "writeRatings" => some PermissionWriteRatings
  | _ => none

/-- The `permissionsToString` table. -/
def permissionsToString : Nat → Option String
  | 1 => some "readUsers"
  | 2 => some "writeUsers"
  | 4 => some "readRatings"
  | 8 => some "writeRatings"
  | _ => none

/-- `Permissions.MarshalJSON`: walk the bits `1, 2, 4, ...` up to (excluding) the
bit pattern `0x8000000000000000` at which the Go loop stops, appending the name
of every recognised set bit.  Bit positions 0 through 62 are visited. -/
def marshalPermissions (p : Nat) : List String :=
  (List.range 63).foldl
    (fun s k =>
      if p &&& (1 <<< k) ≠ 0 then
        match permissionsToString (1 <<< k) with
        | some sp => s ++ [sp]
        | none => s
      else s)
    []

/-- `Permissions.UnmarshalJSON` applied to an already-decoded string list: OR the
bit of every recognised name into `p`, failing on any unrecognised name. -/
def unmarshalPermissions (pl : List String) (p : Nat) : Option Nat :=
  match pl with
  | [] => some p
  | e :: rest =>
    match permissionsFromString e with
    | some ps => unmarshalPermissions rest (p ||| ps)
    | none => none

/-- Outcome of the `Can` middleware: either the wrapped handler executes or the
request is refused with `ErrForbidden`. -/
inductive CanOutcome where
  | proceed
  | forbidden
  deriving DecidableEq, Repr

/-- `middleware.Can` (auth.go lines 62-73): the wrapped handler runs exactly when
`user.Role.Permissions & p == p`, otherwise the forbidden error is returned. -/
def Can (p : Nat) (userPerms : Nat) : CanOutcome :=
  if userPerms &&& p ≠ p then .forbidden else .proceed

/-- C4: the authorization gate admits a caller holding bitmask `m` against
required set `p` if and only if `m AND p = p`; equivalently, if and only if every
bit of `p` is held by the caller, so a strict superset of `p` is admitted and a
caller missing any single bit of `p` is refused with the forbidden error,
whatever other bits it holds. -/
theorem Can_iff_and_mask (m p : Nat) :
    (Can p m = .proceed ↔ m &&& p = p) ∧
    (Can p m = .proceed ↔ ∀ i, p.testBit i → m.testBit i) ∧
    (Can p m = .forbidden ↔ ∃ i, p.testBit i ∧ ¬ m.testBit i) := by
  have hand : m &&& p = p ↔ ∀ i, p.testBit i → m.testBit i := by
    constructor
    · intro h i hp
      have h2 : (m.testBit i && p.testBit i) = p.testBit i := by
        simpa [Nat.testBit_and] using congrArg (Nat.testBit · i) h
      rw [hp] at h2
      simpa using h2
    · intro h
      apply Nat.eq_of_testBit_eq
      intro i
      simp only [Nat.testBit_and]
      cases hp : p.testBit i with
      | false => simp
      | true => simp [h i hp]
  have hproceed : Can p m = .proceed ↔ m &&& p = p := by
    unfold Can
    by_cases h : m &&& p = p <;> simp [h]
  refine ⟨hproceed, hproceed.trans hand, ?_⟩
  unfold Can
  by_cases h : m &&& p = p
  · simp only [h, ne_eq, not_true_eq_false, if_false]
    constructor
    · intro hc; cases hc
    · rintro ⟨i, hp, hm⟩
      exact absurd (hand.mp h i hp) hm
  · simp only [ne_eq, h, not_false_eq_true, if_true, true_iff]
    by_contra hno
    exact h (hand.mpr fun i hp => by
      by_contra hm
      exact hno ⟨i, hp, hm⟩)

/-- C10: encoding any union of the four recognised permission flags to its wire
string list and decoding that list into a zero-initialised Permissions value
yields the original bitmask. -/
theorem marshal_unmarshal_roundtrip (m : Nat) (h : m &&& 15 = m) :
    unmarshalPermissions (marshalPermissions m) 0 = some m := by
  have hm : m < 16 := by
    have hle : m &&& 15 ≤ 15 := Nat.and_le_right
    omega
  interval_cases m <;> rfl

/-- Witness for C10 at the bitmask readUsers+readRatings+writeRatings = 13. -/
theorem marshal_unmarshal_roundtrip_witness :
    unmarshalPermissions (marshalPermissions 13) 0 = some 13 :=
  marshal_unmarshal_roundtrip 13 (by decide)

/-! ## Data model (users.go, roles.go, ratings.go) -/

/-- A `Role` as stored: id, unique label, permission bitmask (the bitmask is the
64-bit two's-complement bit pattern of the Go int64, so the admin value
`Permissions(-1)` is the all-ones pattern). -/
structure Role where
  id : Int
  label : String
  permissions : Nat
  deriving DecidableEq, Repr

/-- A `User` (principal). `password` holds the bcrypt hash as stored. -/
structure User where
  id : Int
  active : Bool
  email : String
  firstName : String
  lastName : String
  password : String
  roleId : Int
  role : Option Role
  settings : String
  deriving DecidableEq, Repr

/-- The Go zero value of `User`. -/
def zeroUser : User :=
  ⟨0, false, "", "", "", "", 0, none, ""⟩

/-- A `Rating`.  `extra` models the raw JSON blob, checked only for length. -/
structure Rating where
  id : Int
  active : Bool
  anonymous : Bool
  comment : String
  date : Int
  extra : String
  score : Int
  target : Int
  userId : Int
  user : Option User
  deriving DecidableEq, Repr

/-- The Go zero value of `Rating`. -/
def zeroRating : Rating :=
  ⟨0, false, false, "", 0, "", 0, 0, 0, none⟩

/-- Errors flowing through the models package. -/
abbrev GoErr := VError ModelError

/-- `userService.ByID`: delegate to the database and clear the password field of
the returned principal. -/
def serviceByID (dbByID : Int → Except GoErr User) (i : Int) : Except GoErr User :=
  match dbByID i with
  | .ok u => .ok { u with password := "" }
  | .error e => .error e

/-! ## Credential service: userValidator.Authenticate / userService.Authenticate -/

/-- Go `strings.ToLower`, character by character. -/
def goToLower (s : String) : String :=
  String.mk (s.toList.map Char.toLower)

/-- Go `strings.TrimSpace`: remove leading and trailing whitespace. -/
def goTrimSpace (s : String) : String :=
  String.mk (((s.toList.dropWhile Char.isWhitespace).reverse.dropWhile
    Char.isWhitespace).reverse)

/-- Characters admitted by the local part of the email regular expression
`[a-z0-9._%+\-]`. -/
def isEmailLocalChar (c : Char) : Bool :=
  c.isLower || c.isDigit || c = '.' || c = '_' || c = '%' || c = '+' || c = '-'

/-- Characters admitted by the domain part of the email regular expression
`[a-z0-9._\-]`. -/
def isEmailDomainChar (c : Char) : Bool :=
  c.isLower || c.isDigit || c = '.' || c = '_' || c = '-'

/-- The anchored regular expression
`^[a-z0-9._%+\-]+@[a-z0-9._\-]+\.[a-z0-9._\-]{2,16}$` of `NewUserService`,
as a decision procedure: neither character class admits `@`, so the string must
contain exactly one `@`; the part before it is a non-empty run of local-part
characters; the part after it is a run of domain characters that can be split at
some dot into a non-empty prefix and a suffix of 2 to 16 characters. -/
def emailRegexMatches (s : String) : Bool :=
  let cs := s.toList
  match cs.findIdx? (· = '@') with
  | none => false
  | some i =>
    let l := cs.take i
    let rest := cs.drop (i + 1)
    !l.isEmpty && l.all isEmailLocalChar && rest.all isEmailDomainChar &&
    (List.range rest.length).any (fun p =>
      decide (1 ≤ p) && decide (rest.getD p ' ' = '.') &&
      decide (2 ≤ rest.length - (p + 1)) && decide (rest.length - (p + 1) ≤ 16))

/-- `userValidator.emailRequired`. -/
def emailRequired : ValStep User ModelError :=
  ⟨"email", fun u => (u, if u.email = "" then some (.pub .required) else none)⟩

/-- `userValidator.passwordRequired`. -/
def passwordRequired : ValStep User ModelError :=
  ⟨"password", fun u => (u, if u.password = "" then some (.pub .required) else none)⟩

/-- `userValidator.passwordLength`: at least 8 characters when non-empty. -/
def passwordLength : ValStep User ModelError :=
  ⟨"password", fun u =>
    (u, if u.password ≠ "" ∧ u.password.length < 8 then some (.pub .tooShort) else none)⟩

/-- `userValidator.normaliseEmail`: lowercase then trim. -/
def normaliseEmail : ValStep User ModelError :=
  ⟨"email", fun u => ({ u with email := goTrimSpace (goToLower u.email) }, none)⟩

/-- `userValidator.emailFormat`: empty emails pass; otherwise the regular
expression must match. -/
def emailFormat : ValStep User ModelError :=
  ⟨"email", fun u =>
    (u, if u.email = "" then none
        else if !emailRegexMatches u.email then some (.pub .invalid) else none)⟩

/-- The pipeline run by `userValidator.Authenticate`. -/
def authenticateSteps : List (ValStep User ModelError) :=
  [emailRequired, passwordRequired, passwordLength, normaliseEmail, emailFormat]

/-- Outcome of `bcrypt.CompareHashAndPassword`, which the embedding takes as an
oracle: match, `bcrypt.ErrMismatchedHashAndPassword`, or any other failure. -/
inductive BcryptResult where
  | ok
  | mismatch
  | failure (msg : String)
  deriving DecidableEq, Repr

/-- `userValidator.Authenticate` (users.go lines 387-426): validate the
credentials through the pipeline, fetch the principal by the normalised email
directly from the database layer, require it to be active, then compare the
stored hash against the supplied password. -/
def userValidatorAuthenticate (byEmail : String → Except GoErr User)
    (bcryptCompare : String → String → BcryptResult)
    (username password : String) : Except GoErr User :=
  let u0 : User := { zeroUser with email := username, password := password }
  match runValidationFunctions authenticateSteps u0 with
  | (_, some e) => .error e
  | (u1, none) =>
    match byEmail u1.email with
    | .error e => .error e
    | .ok user =>
      if !user.active then .error (.pub .invalid)
      else
        match bcryptCompare user.password password with
        | .ok => .ok user
        | .mismatch => .error (.validation [("password", .passwordIncorrect)])
        | .failure msg => .error (.priv ("failed to compare password hashes: " ++ msg))

/-- Result of `userService.Authenticate` together with whether the
`time.Sleep(waitAfterAuthError)` protection sleep was executed before
returning. -/
structure AuthOutcome where
  result : Except GoErr User
  slept : Bool
  deriving Repr

/-- `xerrors.Is(err, ValidationError target)`: `err` must itself be a
`ValidationError` agreeing with `target` on every key of `target`. -/
def validationErrorIs (x : GoErr) (target : List (String × ModelError)) : Bool :=
  match x with
  | .validation m => target.all (fun kv => mapGet m kv.1 = some kv.2)
  | _ => false

/-- `userService.Authenticate` (users.go lines 186-211): mask the validator's
errors.  A missing email or password maps to `ErrNoCredentials` without
sleeping; a `ValidationError` carrying `ErrPasswordIncorrect` for the password
field returns `ErrUnauthorised` immediately — before the protection sleep; any
other `ValidationError` or `ModelError` maps to `ErrUnauthorised` after the
sleep; other errors are returned unchanged after the sleep. -/
def userServiceAuthenticate (byEmail : String → Except GoErr User)
    (bcryptCompare : String → String → BcryptResult)
    (username password : String) : AuthOutcome :=
  match userValidatorAuthenticate byEmail bcryptCompare username password with
  | .ok user => ⟨.ok user, false⟩
  | .error err =>
    if validationErrorIs err [("email", .required)]
        || validationErrorIs err [("password", .required)] then
      ⟨.error (.pub .noCredentials), false⟩
    else
      match err with
      | .validation verr =>
        if mapGet verr "password" = some .passwordIncorrect then
          ⟨.error (.pub .unauthorised), false⟩
        else
          ⟨.error (.pub .unauthorised), true⟩
      | .pub _ => ⟨.error (.pub .unauthorised), true⟩
      | .priv msg => ⟨.error (.priv msg), true⟩

/-- Database with one active account whose stored hash does not match the
supplied password. -/
def activeMismatchDB : String → Except GoErr User :=
  fun e =>
    if e = "user@example.com" then
      .ok { zeroUser with
            id := 7
            active := true
            email := "user@example.com"
            password := "storedhashofanotherpassword"
            roleId := 2 }
    else .error (.pub .notFound)

/-- Database in which no account exists. -/
def ghostDB : String → Except GoErr User :=
  fun _ => .error (.pub .notFound)

/-- Database with one inactive account. -/
def inactiveDB : String → Except GoErr User :=
  fun e =>
    if e = "user@example.com" then
      .ok { zeroUser with
            id := 7
            active := false
            email := "user@example.com"
            password := "storedhashofanotherpassword"
            roleId := 2 }
    else .error (.pub .notFound)

/-- Comparison oracle reporting a hash mismatch. -/
def mismatchCompare : String → String → BcryptResult :=
  fun _ _ => .mismatch

/-- C1 evaluated on the code: all three failure modes with non-empty credentials
(hash mismatch, unknown account, inactive account) return the identical opaque
`ErrUnauthorised`, but on the hash-mismatch path — the early return inside
`userService.Authenticate` — the minimum 500ms protection sleep is skipped,
while the unknown-account and inactive-account paths do sleep.  This refutes the
claim's "every such failing call imposes a minimum delay" for the code as
written. -/
theorem authenticate_mismatch_skips_sleep :
    userServiceAuthenticate activeMismatchDB mismatchCompare "user@example.com" "password1"
      = ⟨.error (.pub .unauthorised), false⟩ ∧
    userServiceAuthenticate ghostDB mismatchCompare "ghost@nowhere.com" "password1"
      = ⟨.error (.pub .unauthorised), true⟩ ∧
    userServiceAuthenticate inactiveDB mismatchCompare "user@example.com" "password1"
      = ⟨.error (.pub .unauthorised), true⟩ := by
  refine ⟨?_, ?_, ?_⟩ <;> rfl

/-- Database for the successful-authentication scenario: the stored bcrypt hash
is `storedbcrypthash`. -/
def storedHashDB : String → Except GoErr User :=
  fun e =>
    if e = "user@example.com" then
      .ok { zeroUser with
            id := 7
            active := true
            email := "user@example.com"
            password := "storedbcrypthash"
            roleId := 2 }
    else .error (.pub .notFound)

/-- Comparison oracle reporting a successful hash comparison. -/
def matchCompare : String → String → BcryptResult :=
  fun _ _ => .ok

/-- C8 evaluated on the code: a successful `Authenticate` returns the principal
with its `password` field still holding the stored hash — the service never
clears it on this path, contradicting both the spec and the `User.Password`
field documentation ("always cleared when the services return a new user"). -/
theorem authenticate_returns_stored_hash :
    (userServiceAuthenticate storedHashDB matchCompare "user@example.com" "password1").result
      = .ok { zeroUser with
              id := 7
              active := true
              email := "user@example.com"
              password := "storedbcrypthash"
              roleId := 2 } ∧
    (match (userServiceAuthenticate storedHashDB matchCompare
        "user@example.com" "password1").result with
      | .ok u => u.password
      | .error _ => "") = "storedbcrypthash" := by
  refine ⟨?_, ?_⟩ <;> rfl

/-! ## Token service (users.go): Token, tokenValidate, Validate, Refresh -/

/-- The claim set carried by a signed token: subject (the principal id in
decimal), issuer (`ratingsapp` for access tokens, `ratingsappr` for refresh
tokens), expiry (epoch seconds) and the custom role-id claim. -/
structure AuthClaims where
  subject : String
  issuer : String
  expiry : Int
  roleId : Int
  deriving DecidableEq, Repr

/-- `jwtAccessDuration` in seconds (6 hours). -/
def jwtAccessDurationSecs : Int := 6 * 3600

/-- `jwtRefreshDuration` in seconds (10 days). -/
def jwtRefreshDurationSecs : Int := 10 * 24 * 3600

/-- go-jose `jwt.DefaultLeeway` (1 minute), applied by `Claims.Validate` when
checking expiry. -/
def jwtDefaultLeewaySecs : Int := 60

/-- The access-token claims minted by `userService.Token`. -/
def accessClaims (u : User) (now : Int) : AuthClaims :=
  ⟨toString u.id, "ratingsapp", now + jwtAccessDurationSecs, u.roleId⟩

/-- The refresh-token claims minted by `userService.Token`. -/
def refreshClaims (u : User) (now : Int) : AuthClaims :=
  ⟨toString u.id, "ratingsappr", now + jwtRefreshDurationSecs, u.roleId⟩

/-- The token pair returned by `userService.Token`, at the level of the signed
claim sets (the HMAC signing itself is outside the embedding: a token minted
here parses and verifies back to exactly these claims). -/
structure TokenPair where
  accessToken : AuthClaims
  refreshToken : AuthClaims
  expiresIn : Int
  tokenType : String
  deriving DecidableEq, Repr

/-- `userService.Token` (users.go lines 277-311). -/
def userServiceToken (u : User) (now : Int) : TokenPair :=
  ⟨accessClaims u now, refreshClaims u now, jwtAccessDurationSecs, "bearer"⟩

/-- `userService.tokenValidate` (users.go lines 339-379) on a
successfully-parsed, signature-verified claim set: check the issuer expected for
the requested kind, then expiry (go-jose validates the issuer before the time
claims, and applies the default leeway), then parse the subject as the user
id.  Issuer mismatch and parse failures yield `ErrRefreshInvalid`; expiry yields
`ErrRefreshExpired`. -/
def tokenValidateClaims (cl : AuthClaims) (isRefresh : Bool) (now : Int) :
    Except ModelError (Int × Int) :=
  let iss := if isRefresh then "ratingsappr" else "ratingsapp"
  if cl.issuer ≠ iss then .error .refreshInvalid
  else if now > cl.expiry + jwtDefaultLeewaySecs then .error .refreshExpired
  else
    match cl.subject.toInt? with
    | none => .error .refreshInvalid
    | some uid => .ok (uid, cl.roleId)

/-- `userService.Validate` (users.go lines 245-275) applied to a parsed claim
set: every `tokenValidate` failure is a `ModelError` and is masked to
`ErrUnauthorised`; then the principal is re-fetched and must still be active. -/
def serviceValidateTokenClaims (dbByID : Int → Except GoErr User)
    (cl : AuthClaims) (now : Int) : Except GoErr User :=
  match tokenValidateClaims cl false now with
  | .error _ => .error (.pub .unauthorised)
  | .ok (uid, _) =>
    match serviceByID dbByID uid with
    | .error e =>
      if e = .pub .notFound then .error (.pub .unauthorised)
      else .error (.priv "on validate, failed to obtain user from database")
    | .ok user =>
      if !user.active then .error (.pub .unauthorised)
      else .ok user

/-- `userService.Refresh` (users.go lines 213-243) applied to a parsed claim
set. -/
def serviceRefreshTokenClaims (dbByID : Int → Except GoErr User)
    (cl : AuthClaims) (now : Int) : Except GoErr User :=
  match tokenValidateClaims cl true now with
  | .error _ => .error (.pub .unauthorised)
  | .ok (uid, _) =>
    match serviceByID dbByID uid with
    | .error e =>
      if e = .pub .notFound then .error (.pub .unauthorised)
      else .error (.priv "on refresh, failed to obtain user from database")
    | .ok user =>
      if !user.active then .error (.pub .unauthorised)
      else .ok user

/-- C6: for any principal and any validation time — in particular before either
token's expiry — presenting the refresh token of a minted pair where an access
token is expected, or the access token where a refresh token is expected, fails,
and the failure surfaces as exactly the same opaque `ErrUnauthorised` used for
every other authentication failure, never as a distinguishable wrong-type
error. -/
theorem token_type_mismatch_unauthorised (u : User) (now t : Int)
    (dbv dbr : Int → Except GoErr User) :
    serviceValidateTokenClaims dbv (userServiceToken u now).refreshToken t
      = .error (.pub .unauthorised) ∧
    serviceRefreshTokenClaims dbr (userServiceToken u now).accessToken t
      = .error (.pub .unauthorised) := by
  constructor <;>
    simp [serviceValidateTokenClaims, serviceRefreshTokenClaims, tokenValidateClaims,
      userServiceToken, accessClaims, refreshClaims]

/-! ## Rating validator (ratings.go) -/

/-- The state threaded through a rating pipeline: the rating record under
validation together with the `ratingValWithDBData` receiver fields that the
closures mutate (`sessionUser`, `dbRating`), both zero-initialised. -/
structure RatingCtx where
  rating : Rating
  sessionUser : User
  dbRating : Rating
  deriving DecidableEq, Repr

/-- `ratingValidator.idSetToZero`. -/
def ratingIdSetToZero : ValStep RatingCtx ModelError :=
  ⟨"", fun c => ({ c with rating := { c.rating with id := 0 } }, none)⟩

/-- `ratingValidator.userSessionExists`: the session user must be attached; its
absence is a wrapped (private) error that aborts the pipeline. -/
def userSessionExists : ValStep RatingCtx ModelError :=
  ⟨"", fun c =>
    (c, if c.rating.user = none then some (.priv "session user does not exist: required")
        else none)⟩

/-- `ratingValidator.userSessionInvalid`: the session user id must be at least
1; runs after `userSessionExists`, so the attached user is read with the zero
user as the (unreachable) default. -/
def userSessionInvalid : ValStep RatingCtx ModelError :=
  ⟨"", fun c =>
    (c, if (c.rating.user.getD zeroUser).id < 1 then
          some (.priv "session user is invalid: invalid")
        else none)⟩

/-- `ratingValidator.targetRequired`. -/
def targetRequired : ValStep RatingCtx ModelError :=
  ⟨"target", fun c => (c, if c.rating.target = 0 then some (.pub .required) else none)⟩

/-- `ratingValidator.targetInvalid`. -/
def targetInvalid : ValStep RatingCtx ModelError :=
  ⟨"target", fun c => (c, if c.rating.target < 1 then some (.pub .invalid) else none)⟩

/-- `ratingValidator.scoreRequired`. -/
def scoreRequired : ValStep RatingCtx ModelError :=
  ⟨"score", fun c => (c, if c.rating.score = 0 then some (.pub .required) else none)⟩

/-- `ratingValidator.commentLength`: at most 512 characters. -/
def commentLength : ValStep RatingCtx ModelError :=
  ⟨"comment", fun c => (c, if c.rating.comment.length > 512 then some (.pub .tooLong) else none)⟩

/-- `ratingValidator.extraLength`: at most 512 bytes of serialized JSON. -/
def extraLength : ValStep RatingCtx ModelError :=
  ⟨"extra", fun c => (c, if c.rating.extra.length > 512 then some (.pub .tooLong) else none)⟩

/-- `ratingValWithDBData.fetchUser`: fetch the session user's principal through
`userService.ByID` (which clears the password) into the receiver. -/
def ratingFetchUser (dbUserByID : Int → Except GoErr User) : ValStep RatingCtx ModelError :=
  ⟨"", fun c =>
    match serviceByID dbUserByID (c.rating.user.getD zeroUser).id with
    | .ok su => ({ c with sessionUser := su }, none)
    | .error e => (c, some e)⟩

/-- `ratingValWithDBData.fetchRating`: fetch the stored rating by the id under
validation into the receiver. -/
def ratingFetchRating (dbRatingByID : Int → Except GoErr Rating) : ValStep RatingCtx ModelError :=
  ⟨"", fun c =>
    match dbRatingByID c.rating.id with
    | .ok dbr => ({ c with dbRating := dbr }, none)
    | .error e => (c, some e)⟩

/-- `ratingValWithDBData.userIsOwner`: the stored rating's owner must be the
fetched session user — no admin override. -/
def userIsOwner : ValStep RatingCtx ModelError :=
  ⟨"", fun c =>
    (c, if c.dbRating.userId ≠ c.sessionUser.id then some (.pub .readOnly) else none)⟩

/-- `ratingValWithDBData.userIsOwnerOrAdmin`: owner, or a session user whose
role id is the fixed admin role id 1. -/
def userIsOwnerOrAdmin : ValStep RatingCtx ModelError :=
  ⟨"", fun c =>
    (c, if c.dbRating.userId ≠ c.sessionUser.id ∧ (c.rating.user.getD zeroUser).roleId ≠ 1 then
          some (.pub .readOnly)
        else none)⟩

/-- `ratingValWithDBData.setDatabaseRatingDefaults`: force the target back to
its stored value. -/
def setDatabaseRatingDefaults : ValStep RatingCtx ModelError :=
  ⟨"", fun c => ({ c with rating := { c.rating with target := c.dbRating.target } }, none)⟩

/-- `ratingValWithDBData.setSessionUserAsUserID`: force the owner id to the
fetched session user's id. -/
def setSessionUserAsUserID : ValStep RatingCtx ModelError :=
  ⟨"", fun c => ({ c with rating := { c.rating with userId := c.sessionUser.id } }, none)⟩

/-- `ratingValidator.setDate`: set the date to the server's current epoch
seconds. -/
def setDate (now : Int) : ValStep RatingCtx ModelError :=
  ⟨"", fun c => ({ c with rating := { c.rating with date := now } }, none)⟩

/-- `ratingValidator.Create` (part_006 lines 110-131) up to the repository
boundary: a returned `.ok r` is the record handed to `RatingDB.Create` (with the
session user detached), an `.error` is returned without delegating any write. -/
def ratingValidatorCreate (dbUserByID : Int → Except GoErr User) (now : Int)
    (rating : Rating) : Except GoErr Rating :=
  match runValidationFunctions
      [ratingIdSetToZero, userSessionExists, userSessionInvalid, targetRequired,
       scoreRequired, commentLength, extraLength, targetInvalid,
       ratingFetchUser dbUserByID, setSessionUserAsUserID, setDate now]
      ⟨rating, zeroUser, zeroRating⟩ with
  | (_, some e) => .error e
  | (c, none) => .ok { c.rating with user := none }

/-- `ratingValidator.Update` (part_006 lines 133-154) up to the repository
boundary. -/
def ratingValidatorUpdate (dbUserByID : Int → Except GoErr User)
    (dbRatingByID : Int → Except GoErr Rating) (now : Int)
    (rating : Rating) : Except GoErr Rating :=
  match runValidationFunctions
      [userSessionExists, userSessionInvalid, scoreRequired, commentLength, extraLength,
       ratingFetchUser dbUserByID, ratingFetchRating dbRatingByID, userIsOwner,
       setDatabaseRatingDefaults, setSessionUserAsUserID, setDate now]
      ⟨rating, zeroUser, zeroRating⟩ with
  | (_, some e) => .error e
  | (c, none) => .ok { c.rating with user := none }

/-- `ratingValidator.Delete` (part_006 lines 156-173) up to the repository
boundary. -/
def ratingValidatorDelete (dbUserByID : Int → Except GoErr User)
    (dbRatingByID : Int → Except GoErr Rating)
    (rating : Rating) : Except GoErr Rating :=
  match runValidationFunctions
      [userSessionExists, userSessionInvalid, ratingFetchUser dbUserByID,
       ratingFetchRating dbRatingByID, userIsOwnerOrAdmin]
      ⟨rating, zeroUser, zeroRating⟩ with
  | (_, some e) => .error e
  | (c, none) => .ok { c.rating with user := none }

/-- C9: whenever the rating Create pipeline accepts, the record delegated to the
repository has its id reset to 0, its owner id forced to the authenticated
session user's id, and its date set to the server's current time — whatever id,
userId or date were supplied in the input. -/
theorem ratingCreate_server_overrides
    (dbUserByID : Int → Except GoErr User) (now : Int) (r : Rating) (u0 su : User)
    (huser : r.user = some u0)
    (hvalid : 1 ≤ u0.id)
    (hfetch : serviceByID dbUserByID u0.id = .ok su)
    (hsu : su.id = u0.id)
    (htarget : 1 ≤ r.target)
    (hscore : r.score ≠ 0)
    (hcomment : r.comment.length ≤ 512)
    (hextra : r.extra.length ≤ 512) :
    ratingValidatorCreate dbUserByID now r
      = .ok { r with id := 0, userId := u0.id, date := now, user := none } := by
  have ht0 : ¬(r.target = 0) := by omega
  have ht1 : ¬(r.target < 1) := by omega
  have hu : ¬(u0.id < 1) := by omega
  have hc : ¬(r.comment.length > 512) := by omega
  have he : ¬(r.extra.length > 512) := by omega
  simp [ratingValidatorCreate, runValidationFunctions, runValidationFunctionsAux,
    ratingIdSetToZero, userSessionExists, userSessionInvalid, targetRequired,
    scoreRequired, commentLength, extraLength, targetInvalid, ratingFetchUser,
    setSessionUserAsUserID, setDate, mapGet, huser, hfetch, hsu, ht0, ht1, hu, hscore, hc,
    he]

/-- C5: with the session user attached and both database fetches succeeding,
Update of a stored rating succeeds exactly when the caller is its owner — a
non-owner is refused with `ErrReadOnly` no matter what role it holds, admin
included — while Delete succeeds exactly when the caller is the owner or the
caller's role id is the fixed admin role id 1, and is refused with
`ErrReadOnly` otherwise. -/
theorem ratingUpdateDelete_ownership
    (dbUserByID : Int → Except GoErr User) (dbRatingByID : Int → Except GoErr Rating)
    (now : Int) (r : Rating) (u0 su : User) (dbr : Rating)
    (huser : r.user = some u0)
    (hvalid : 1 ≤ u0.id)
    (hfetchU : serviceByID dbUserByID u0.id = .ok su)
    (hsu : su.id = u0.id)
    (hfetchR : dbRatingByID r.id = .ok dbr)
    (hscore : r.score ≠ 0)
    (hcomment : r.comment.length ≤ 512)
    (hextra : r.extra.length ≤ 512) :
    (ratingValidatorUpdate dbUserByID dbRatingByID now r =
      if dbr.userId = u0.id then
        .ok { r with target := dbr.target, userId := u0.id, date := now, user := none }
      else .error (.pub .readOnly)) ∧
    (ratingValidatorDelete dbUserByID dbRatingByID r =
      if dbr.userId = u0.id ∨ u0.roleId = 1 then .ok { r with user := none }
      else .error (.pub .readOnly)) := by
  have hu : ¬(u0.id < 1) := by omega
  have hc : ¬(r.comment.length > 512) := by omega
  have he : ¬(r.extra.length > 512) := by omega
  constructor
  · by_cases hown : dbr.userId = u0.id <;>
      simp [ratingValidatorUpdate, runValidationFunctions, runValidationFunctionsAux,
        userSessionExists, userSessionInvalid, scoreRequired, commentLength, extraLength,
        ratingFetchUser, ratingFetchRating, userIsOwner, setDatabaseRatingDefaults,
        setSessionUserAsUserID, setDate, mapGet, huser, hfetchU, hfetchR, hsu, hu, hscore,
        hc, he, hown]
  · by_cases hown : dbr.userId = u0.id
    · simp [ratingValidatorDelete, runValidationFunctions, runValidationFunctionsAux,
        userSessionExists, userSessionInvalid, ratingFetchUser, ratingFetchRating,
        userIsOwnerOrAdmin, mapGet, huser, hfetchU, hfetchR, hsu, hu, hown]
    · by_cases hrole : u0.roleId = 1 <;>
        simp [ratingValidatorDelete, runValidationFunctions, runValidationFunctionsAux,
          userSessionExists, userSessionInvalid, ratingFetchUser, ratingFetchRating,
          userIsOwnerOrAdmin, mapGet, huser, hfetchU, hfetchR, hsu, hu, hown, hrole]

/-- User database for the rating witnesses: principal 1 is an active regular
user, principal 2 is an active admin-role user; nobody else exists. -/
def ratingWitnessUserDB : Int → Except GoErr User :=
  fun i =>
    if i = 1 then .ok { zeroUser with id := 1, active := true, roleId := 2 }
    else if i = 2 then .ok { zeroUser with id := 2, active := true, roleId := 1 }
    else .error (.pub .notFound)

/-- Rating database for the rating witnesses: rating 42 is owned by user 1. -/
def ratingWitnessRatingDB : Int → Except GoErr Rating :=
  fun i =>
    if i = 42 then
      .ok { zeroRating with
            id := 42
            active := true
            score := 10
            target := 9999
            userId := 1 }
    else .error (.pub .notFound)

/-- The rating submitted by the C9 witness: client-supplied id, owner id and
date that the server must override, created by session user 1. -/
def c9InputRating : Rating :=
  { zeroRating with
    id := 77
    score := 10
    target := 9999
    userId := 5555
    date := 123456
    user := some { zeroUser with id := 1, active := true, roleId := 2 } }

/-- Witness for C9: creating `{score:10, target:9999}` as session user 1
succeeds with id reset to 0, userId forced to 1 and date set to the server
time, whatever userId/id/date the input carried. -/
theorem ratingCreate_server_overrides_witness :
    ratingValidatorCreate ratingWitnessUserDB 1700000000 c9InputRating
      = .ok { c9InputRating with id := 0, userId := 1, date := 1700000000, user := none } :=
  ratingCreate_server_overrides ratingWitnessUserDB 1700000000 c9InputRating
    { zeroUser with id := 1, active := true, roleId := 2 }
    { zeroUser with id := 1, active := true, roleId := 2 }
    rfl (by decide) rfl rfl (by decide) (by decide) (by decide) (by decide)

/-- The rating update/delete request of the C5 witness: rating 42 (owned by
user 1) addressed by session user 2, whose role id is the admin role id 1. -/
def c5InputRating : Rating :=
  { zeroRating with
    id := 42
    score := 3
    user := some { zeroUser with id := 2, active := true, roleId := 1 } }

/-- Witness for C5: an admin-role caller who is not the owner is refused Update
with the read-only error but may Delete. -/
theorem ratingUpdateDelete_ownership_witness :
    ratingValidatorUpdate ratingWitnessUserDB ratingWitnessRatingDB 1700000000 c5InputRating
      = .error (.pub .readOnly) ∧
    ratingValidatorDelete ratingWitnessUserDB ratingWitnessRatingDB c5InputRating
      = .ok { c5InputRating with user := none } := by
  have h := ratingUpdateDelete_ownership ratingWitnessUserDB ratingWitnessRatingDB
    1700000000 c5InputRating
    { zeroUser with id := 2, active := true, roleId := 1 }
    { zeroUser with id := 2, active := true, roleId := 1 }
    { zeroRating with id := 42, active := true, score := 10, target := 9999, userId := 1 }
    rfl (by decide) rfl rfl rfl (by decide) (by decide) (by decide)
  simpa using h

/-! ## Role validator (roles.go) and user validator mutation guards (users.go) -/

/-- Whitespace-separated fields of a character list (Go `strings.Fields`). -/
def fieldsAux : List Char → List Char → List String
  | [], acc => if acc.isEmpty then [] else [String.mk acc.reverse]
  | c :: cs, acc =>
    if c.isWhitespace then
      if acc.isEmpty then fieldsAux cs []
      else String.mk acc.reverse :: fieldsAux cs []
    else fieldsAux cs (c :: acc)

/-- Go `strings.Join(strings.Fields(s), " ")`. -/
def goFieldsJoin (s : String) : String :=
  " ".intercalate (fieldsAux s.toList [])

/-- `roleValidator.idSetToZero`. -/
def roleIdSetToZero : ValStep Role ModelError :=
  ⟨"", fun r => ({ r with id := 0 }, none)⟩

/-- `roleValidator.isNotAdmin`: the label may not be `admin`. -/
def roleIsNotAdmin : ValStep Role ModelError :=
  ⟨"label", fun r => (r, if r.label = "admin" then some (.pub .duplicate) else none)⟩

/-- `roleValidator.isNotUser`: the label may not be `user`. -/
def roleIsNotUser : ValStep Role ModelError :=
  ⟨"label", fun r => (r, if r.label = "user" then some (.pub .duplicate) else none)⟩

/-- `roleValidator.idNotAdmin`: role id 1 is read-only. -/
def roleIdNotAdmin : ValStep Role ModelError :=
  ⟨"", fun r => (r, if r.id = 1 then some (.pub .readOnly) else none)⟩

/-- `roleValidator.idNotUser`: role id 2 is read-only. -/
def roleIdNotUser : ValStep Role ModelError :=
  ⟨"", fun r => (r, if r.id = 2 then some (.pub .readOnly) else none)⟩

/-- `roleValidator.labelRequired`. -/
def roleLabelRequired : ValStep Role ModelError :=
  ⟨"label", fun r => (r, if r.label = "" then some (.pub .required) else none)⟩

/-- `roleValidator.normaliseLabel`: lowercase, trim, collapse inner runs of
whitespace to single spaces. -/
def roleNormaliseLabel : ValStep Role ModelError :=
  ⟨"label", fun r =>
    ({ r with label := goFieldsJoin (goTrimSpace (goToLower r.label)) }, none)⟩

/-- `roleValidator.labelLength`: at least 4 characters when non-empty. -/
def roleLabelLength : ValStep Role ModelError :=
  ⟨"label", fun r =>
    (r, if r.label ≠ "" ∧ r.label.length < 4 then some (.pub .tooShort) else none)⟩

/-- `roleValidator.Update` (part_009 lines 172-186) up to the repository
boundary: `.ok` is the validated role delegated to `RoleDB.Update`, `.error`
means no write is delegated. -/
def roleValidatorUpdate (role : Role) : Except GoErr Role :=
  match runValidationFunctions
      [roleIdNotAdmin, roleIdNotUser, roleIsNotAdmin, roleIsNotUser, roleLabelRequired,
       roleNormaliseLabel, roleLabelLength] role with
  | (_, some e) => .error e
  | (r, none) => .ok r

/-- `roleValidator.Delete` (part_009 lines 188-198): validate `Role{ID: id}`
with the two read-only guards, then delegate the delete. -/
def roleValidatorDelete (id : Int) : Except GoErr Unit :=
  match runValidationFunctions [roleIdNotAdmin, roleIdNotUser]
      (⟨id, "", 0⟩ : Role) with
  | (_, some e) => .error e
  | (_, none) => .ok ()

/-- `userValidator.idNotAdmin` (users.go lines 585-593): user id 1 is
read-only. -/
def userIdNotAdmin : ValStep User ModelError :=
  ⟨"", fun u => (u, if u.id = 1 then some (.pub .readOnly) else none)⟩

/-- `userValidator.Delete` (users.go lines 494-502) up to the repository
boundary. -/
def userValidatorDelete (id : Int) : Except GoErr Unit :=
  match runValidationFunctions [userIdNotAdmin] { zeroUser with id := id } with
  | (_, some e) => .error e
  | (_, none) => .ok ()

/-- The state threaded through the user Update pipeline: the user under
validation plus the `userValWithCurrent` receiver's `current` field. -/
structure UserCtx where
  user : User
  current : User
  deriving DecidableEq, Repr

/-- `userValWithCurrent.fetchUser`: load the stored principal by the id under
validation (through the validator's promoted `UserDB.ByID`). -/
def ucFetchUser (dbByID : Int → Except GoErr User) : ValStep UserCtx ModelError :=
  ⟨"", fun c =>
    match dbByID c.user.id with
    | .ok cur => ({ c with current := cur }, none)
    | .error e => (c, some e)⟩

/-- `userValidator.idNotAdmin` as run inside the Update pipeline. -/
def updIdNotAdmin : ValStep UserCtx ModelError :=
  ⟨"", fun c => (c, if c.user.id = 1 then some (.pub .readOnly) else none)⟩

/-- `userValidator.firstNameRequired`. -/
def updFirstNameRequired : ValStep UserCtx ModelError :=
  ⟨"firstName", fun c => (c, if c.user.firstName = "" then some (.pub .required) else none)⟩

/-- `userValidator.firstNameLength`: at least two characters. -/
def updFirstNameLength : ValStep UserCtx ModelError :=
  ⟨"firstName", fun c => (c, if c.user.firstName.length < 2 then some (.pub .tooShort) else none)⟩

/-- `userValidator.settingsLength`: at most 8192 bytes. -/
def updSettingsLength : ValStep UserCtx ModelError :=
  ⟨"settings", fun c => (c, if c.user.settings.length > 8192 then some (.pub .tooLong) else none)⟩

/-- `userValidator.emailRequired` as run inside the Update pipeline. -/
def updEmailRequired : ValStep UserCtx ModelError :=
  ⟨"email", fun c => (c, if c.user.email = "" then some (.pub .required) else none)⟩

/-- `userValidator.normaliseEmail` as run inside the Update pipeline. -/
def updNormaliseEmail : ValStep UserCtx ModelError :=
  ⟨"email", fun c =>
    ({ c with user := { c.user with email := goTrimSpace (goToLower c.user.email) } }, none)⟩

/-- `userValidator.emailFormat` as run inside the Update pipeline. -/
def updEmailFormat : ValStep UserCtx ModelError :=
  ⟨"email", fun c =>
    (c, if c.user.email = "" then none
        else if !emailRegexMatches c.user.email then some (.pub .invalid) else none)⟩

/-- `userValidator.passwordLength` as run inside the Update pipeline. -/
def updPasswordLength : ValStep UserCtx ModelError :=
  ⟨"password", fun c =>
    (c, if c.user.password ≠ "" ∧ c.user.password.length < 8 then some (.pub .tooShort)
        else none)⟩

/-- `userValidator.passwordHash`: hash a non-empty password through the bcrypt
oracle; a hashing failure is a wrapped private error. -/
def updPasswordHash (hashFn : String → Except String String) : ValStep UserCtx ModelError :=
  ⟨"", fun c =>
    if c.user.password = "" then (c, none)
    else
      match hashFn c.user.password with
      | .ok h => ({ c with user := { c.user with password := h } }, none)
      | .error msg => (c, some (.priv ("failed to hash password: " ++ msg)))⟩

/-- `userValWithCurrent.preservePassword`: keep the stored hash when no new
password was supplied. -/
def ucPreservePassword : ValStep UserCtx ModelError :=
  ⟨"", fun c =>
    if c.user.password = "" then
      ({ c with user := { c.user with password := c.current.password } }, none)
    else (c, none)⟩

/-- `userValWithCurrent.emailIsTaken`: advisory duplicate pre-check against the
database when the email changed. -/
def ucEmailIsTaken (dbByEmail : String → Except GoErr User) : ValStep UserCtx ModelError :=
  ⟨"email", fun c =>
    (c, if c.current.email ≠ c.user.email then
          match dbByEmail c.user.email with
          | .ok cu =>
            if c.user.id ≠ 0 ∧ c.user.id ≠ cu.id then some (.pub .duplicate) else none
          | .error _ => none
        else none)⟩

/-- `userValidator.roleIDExists`: a missing role yields `ErrRefNotFound`; any
other lookup error is ignored and left to the storage layer's constraints. -/
def updRoleIDExists (dbRoleByID : Int → Except GoErr Role) : ValStep UserCtx ModelError :=
  ⟨"roleId", fun c =>
    (c, match dbRoleByID c.user.roleId with
        | .error e => if e = .pub .notFound then some (.pub .refNotFound) else none
        | .ok _ => none)⟩

/-- `userValidator.Update` (users.go lines 466-492) up to the repository
boundary: `.ok` is the validated record delegated to `UserDB.Update`, `.error`
means no write is delegated. -/
def userValidatorUpdate (dbByID : Int → Except GoErr User)
    (dbByEmail : String → Except GoErr User) (dbRoleByID : Int → Except GoErr Role)
    (hashFn : String → Except String String) (u : User) : Except GoErr User :=
  match runValidationFunctions
      [ucFetchUser dbByID, updIdNotAdmin, updFirstNameRequired, updFirstNameLength,
       updSettingsLength, updEmailRequired, updNormaliseEmail, updEmailFormat,
       updPasswordLength, updPasswordHash hashFn, ucPreservePassword,
       ucEmailIsTaken dbByEmail, updRoleIDExists dbRoleByID]
      (⟨u, zeroUser⟩ : UserCtx) with
  | (_, some e) => .error e
  | (c, none) => .ok c.user

/-- C7: Update and Delete of role id 1 or role id 2 fail with `ErrReadOnly`
unconditionally — whatever the other field values and before any write reaches
the repository — and so do Delete of user id 1 and (once the pipeline's
initial fetch of the stored principal returns) Update of user id 1, for every
caller, since the validators never consult the caller's permission bits. -/
theorem fixed_ids_read_only
    (role1 role2 : Role) (h1 : role1.id = 1) (h2 : role2.id = 2)
    (dbByID : Int → Except GoErr User) (dbByEmail : String → Except GoErr User)
    (dbRoleByID : Int → Except GoErr Role) (hashFn : String → Except String String)
    (u : User) (hu : u.id = 1) (cur : User) (hfetch : dbByID 1 = .ok cur) :
    roleValidatorUpdate role1 = .error (.pub .readOnly) ∧
    roleValidatorUpdate role2 = .error (.pub .readOnly) ∧
    roleValidatorDelete 1 = .error (.pub .readOnly) ∧
    roleValidatorDelete 2 = .error (.pub .readOnly) ∧
    userValidatorDelete 1 = .error (.pub .readOnly) ∧
    userValidatorUpdate dbByID dbByEmail dbRoleByID hashFn u = .error (.pub .readOnly) := by
  refine ⟨?_, ?_, ?_, ?_, ?_, ?_⟩
  · simp [roleValidatorUpdate, runValidationFunctions, runValidationFunctionsAux,
      roleIdNotAdmin, h1]
  · simp [roleValidatorUpdate, runValidationFunctions, runValidationFunctionsAux,
      roleIdNotAdmin, roleIdNotUser, h2]
  · rfl
  · rfl
  · rfl
  · simp [userValidatorUpdate, runValidationFunctions, runValidationFunctionsAux,
      ucFetchUser, updIdNotAdmin, hu, hfetch]

/-- Stored principal 1 for the C7 witness. -/
def c7StoredAdmin : User :=
  { zeroUser with
    id := 1
    active := true
    email := "admin@admin.com"
    firstName := "admin"
    roleId := 1 }

/-- User database for the C7 witness. -/
def c7UserByID : Int → Except GoErr User :=
  fun i => if i = 1 then .ok c7StoredAdmin else .error (.pub .notFound)

/-- Email lookup for the C7 witness. -/
def c7UserByEmail : String → Except GoErr User :=
  fun _ => .error (.pub .notFound)

/-- Role lookup for the C7 witness. -/
def c7RoleByID : Int → Except GoErr Role :=
  fun i =>
    if i = 1 then .ok ⟨1, "admin", 18446744073709551615⟩
    else if i = 2 then .ok ⟨2, "user", 0⟩
    else .error (.pub .notFound)

/-- Hashing oracle for the C7 witness. -/
def c7HashFn : String → Except String String :=
  fun s => .ok ("bcrypt:" ++ s)

/-- The update request against user 1 in the C7 witness. -/
def c7UpdateInput : User :=
  { zeroUser with
    id := 1
    active := true
    email := "admin@admin.com"
    firstName := "renamed"
    roleId := 2
    settings := "\x7b\x7d" }

/-- Witness for C7: the system roles (ids 1 and 2, with every permission bit and
none) and the super-admin principal reject Update and Delete with the read-only
error at concrete inputs. -/
theorem fixed_ids_read_only_witness :
    roleValidatorUpdate ⟨1, "admin", 18446744073709551615⟩ = .error (.pub .readOnly) ∧
    roleValidatorUpdate ⟨2, "user", 0⟩ = .error (.pub .readOnly) ∧
    roleValidatorDelete 1 = .error (.pub .readOnly) ∧
    roleValidatorDelete 2 = .error (.pub .readOnly) ∧
    userValidatorDelete 1 = .error (.pub .readOnly) ∧
    userValidatorUpdate c7UserByID c7UserByEmail c7RoleByID c7HashFn c7UpdateInput
      = .error (.pub .readOnly) :=
  fixed_ids_read_only ⟨1, "admin", 18446744073709551615⟩ ⟨2, "user", 0⟩ rfl rfl
    c7UserByID c7UserByEmail c7RoleByID c7HashFn c7UpdateInput rfl c7StoredAdmin rfl

end RatingsApp
